import Mathlib

/-!
Verification development for the LibFS inode file system (src/LibFS.c).

The C source is embedded shallowly: the simulated disk's sector contents are
modelled as typed views (byte sectors for file data, dirent sectors for
directory data, a record map for the inode table), mirroring the source's
explicit partition of the volume into disjoint regions, and each C function is
transcribed as a pure Lean function on an explicit state.  C `int` values that
are used as signed status codes stay `Int`; values the code keeps non-negative
(sizes, positions, indices) are `Nat`.  Disk I/O never fails in the model
(device-layer errors are outside the claims under study).
-/

set_option maxRecDepth 40000

namespace LibFS

/-- Modelled from the spec: `LibDisk.h` is not under `src/`.  The spec only
says the layout is "computed from configured constants: sector size, total
sectors, max files, max data blocks per file"; we fix the reference
configuration of the simulated disk (512-byte sectors). -/
def SECTOR_SIZE : Nat := 512

/-- Modelled from the spec: total number of sectors of the simulated disk
(`LibDisk.h` is not under `src/`). -/
def TOTAL_SECTORS : Nat := 10000

/-- Modelled from the spec: maximum number of files, i.e. inode-table entries
(`LibFS.h` is not under `src/`). -/
def MAX_FILES : Nat := 1000

/-- Modelled from the spec: size of an inode's direct data-block array
(`LibFS.h` is not under `src/`; the spec calls it `MAX_BLOCKS_PER_FILE`). -/
def MAX_SECTORS_PER_FILE : Nat := 30

/-- Max length of a filename, including the terminating NUL (src/LibFS.c:83). -/
def MAX_NAME : Nat := 16

/-- Max length of a path, including the terminating NUL (src/LibFS.c:80). -/
def MAX_PATH : Nat := 256

/-- Max number of open files (src/LibFS.c:86). -/
def MAX_OPEN_FILES : Nat := 256

/-- Bytes of the inode bitmap: one bit per inode (src/LibFS.c:37). -/
def INODE_BITMAP_SIZE : Nat := (MAX_FILES + 7) / 8

/-- Bytes of the sector bitmap: one bit per disk sector (src/LibFS.c:47). -/
def SECTOR_BITMAP_SIZE : Nat := (TOTAL_SECTORS + 7) / 8

/-- Size in bytes of a `dirent_t`: a `MAX_NAME` name plus an `int` inode
(src/LibFS.c:91-94). -/
def sizeofDirent : Nat := MAX_NAME + 4

/-- Directory entries per sector (src/LibFS.c:97). -/
def DIRENTS_PER_SECTOR : Nat := SECTOR_SIZE / sizeofDirent

/-- Error codes surfaced through `osErrno`.  `LibFS.h` is not under `src/`;
the constructors are exactly the `E_*` names the source assigns. -/
inductive OsErr where
  | E_GENERAL
  | E_CREATE
  | E_NO_SUCH_FILE
  | E_NO_SUCH_DIR
  | E_FILE_IN_USE
  | E_TOO_MANY_OPEN_FILES
  | E_BAD_FD
  | E_FILE_TOO_BIG
  | E_NO_SPACE
  | E_SEEK_OUT_OF_BOUNDS
  | E_ROOT_DIR
  | E_BUFFER_TOO_SMALL
  deriving DecidableEq, Repr

/-! ## Bitmap allocator (src/LibFS.c:144-191)

A bitmap is its sequence of bytes (each `< 256`), the sectors that hold it
concatenated in order.  Bit `k` of a byte is numbered from the most
significant bit down, exactly as the source's `BYTE1`/`BYTE0` tables do. -/

/-- Lookup table from the source: the byte with only bit `k` set, bit 0 being
the most significant (src/LibFS.c:147-148). -/
def BYTE1 : List Nat := [128, 64, 32, 16, 8, 4, 2, 1]

/-- Lookup table from the source: the byte with only bit `k` cleared
(src/LibFS.c:177-178). -/
def BYTE0 : List Nat := [127, 191, 223, 239, 247, 251, 253, 254]

/-- Inner `while (k < 8)` scan of `bitmap_first_unused` (src/LibFS.c:156-162),
structured on the number of bits left to inspect so that it reduces in the
kernel: from position `k` with `fuel = 8 - k`, the first `k` whose bit is
clear in byte `b` (the loop's exit value `8` when none is). -/
def ffzFrom (b : Nat) : Nat → Nat → Nat
  | 0, k => k
  | fuel + 1, k => if b &&& BYTE1.getD k 0 = 0 then k else ffzFrom b fuel (k + 1)

/-- First zero bit of byte `b`, most-significant first. -/
def ffz (b : Nat) : Nat := ffzFrom b 8 0

/-- Scan loop of `bitmap_first_unused` (src/LibFS.c:150-168), flattened over
the bitmap's bytes in sector order.  `nbits` counts the remaining scannable
bytes (the C function's `nbits` argument is a byte count: it is compared to
the byte index `j` and decremented by `SECTOR_SIZE` per sector, which
flattens to one decrement per byte).  On success the global bit index and the
updated bitmap are returned; writing the updated sector back to disk is the
list update. -/
def bfuGo : Nat → List Nat → Option (Nat × List Nat)
  | _, [] => none
  | nbits, b :: rest =>
    if nbits = 0 then none
    else if b < 255 then some (ffz b, (b ||| BYTE1.getD (ffz b) 0) :: rest)
    else (bfuGo (nbits - 1) rest).map (fun p => (p.1 + 8, b :: p.2))

/-- `bitmap_first_unused` (src/LibFS.c:144-170): set the first unused bit and
return its location, or `none` (the C `-1`) when no zero bit is in range. -/
def bitmap_first_unused (bm : List Nat) (nbits : Nat) : Option (Nat × List Nat) :=
  bfuGo nbits bm

/-- `bitmap_reset` (src/LibFS.c:174-191): clear bit `ibit`.  The byte holding
the bit is `ibit / 8`; the sector arithmetic of the source addresses the same
byte through `Disk_Read`/`Disk_Write`. -/
def bitmap_reset (bm : List Nat) (ibit : Nat) : List Nat :=
  bm.set (ibit / 8) (bm.getD (ibit / 8) 0 &&& BYTE0.getD (ibit % 8) 0)

/-- Bit `i` of the bitmap, under the source's most-significant-first
numbering. -/
def bitGet (bm : List Nat) (i : Nat) : Bool :=
  decide (bm.getD (i / 8) 0 &&& BYTE1.getD (i % 8) 0 ≠ 0)

/-- Number of zero bits of one byte. -/
def byteZeroCount (b : Nat) : Nat :=
  (List.range 8).countP (fun k => decide (b &&& BYTE1.getD k 0 = 0))

/-- Number of zero (free) bits in the first `n` bytes of the bitmap. -/
def freeBits : List Nat → Nat → Nat
  | _, 0 => 0
  | [], _ + 1 => 0
  | b :: rest, n + 1 => byteZeroCount b + freeBits rest n

/-- Well-formed byte list: every entry is an actual byte. -/
def wfBytes (bm : List Nat) : Prop := ∀ b ∈ bm, b < 256

instance (bm : List Nat) : Decidable (wfBytes bm) := by
  unfold wfBytes; infer_instance

/-! ## Derived layout constants (src/LibFS.c:37-75) -/

/-- Sectors of the inode bitmap (src/LibFS.c:38). -/
def INODE_BITMAP_SECTORS : Nat := (INODE_BITMAP_SIZE + SECTOR_SIZE - 1) / SECTOR_SIZE

/-- Sectors of the sector bitmap (src/LibFS.c:48). -/
def SECTOR_BITMAP_SECTORS : Nat := (SECTOR_BITMAP_SIZE + SECTOR_SIZE - 1) / SECTOR_SIZE

/-- Size in bytes of an `inode_t`: two `int` fields plus the direct block
array (src/LibFS.c:57-61). -/
def sizeofInode : Nat := 8 + 4 * MAX_SECTORS_PER_FILE

/-- Inode records per sector (src/LibFS.c:70). -/
def INODES_PER_SECTOR : Nat := SECTOR_SIZE / sizeofInode

/-- Sectors of the inode table (src/LibFS.c:71). -/
def INODE_TABLE_SECTORS : Nat := (MAX_FILES + INODES_PER_SECTOR - 1) / INODES_PER_SECTOR

/-- First data-block sector (src/LibFS.c:75): superblock, the two bitmaps and
the inode table precede it. -/
def DATABLOCK_START_SECTOR : Nat :=
  1 + INODE_BITMAP_SECTORS + SECTOR_BITMAP_SECTORS + INODE_TABLE_SECTORS

/-! ## Filename legality (src/LibFS.c:197-217) -/

/-- Per-character test of `illegal_filename` (src/LibFS.c:209-211), exactly
as the source writes it: the range tests are combined with logical AND. -/
def illegalCharTest (ch : Nat) : Bool :=
  (decide (ch < 65) && decide (90 < ch)) && (decide (ch < 97) && decide (122 < ch)) &&
    (decide (ch < 48) && decide (57 < ch)) &&
    decide (ch ≠ 45) && decide (ch ≠ 46) && decide (ch ≠ 95)

/-- `illegal_filename` (src/LibFS.c:197-217): 1 when the name is illegal,
0 when it is legal.  A name is a list of byte values. -/
def illegal_filename (name : List Nat) : Nat :=
  if MAX_NAME - 1 < name.length then 1
  else if name.any illegalCharTest then 1
  else 0

/-- Modelled from the spec: the intended legal character set for a filename
segment ("characters limited to `A–Z`, `a–z`, `0–9`, `.`, `-`, `_`"), stated
for comparison with the source's `illegal_filename`. -/
def specLegalChar (ch : Nat) : Prop :=
  (65 ≤ ch ∧ ch ≤ 90) ∨ (97 ≤ ch ∧ ch ≤ 122) ∨ (48 ≤ ch ∧ ch ≤ 57) ∨
    ch = 45 ∨ ch = 46 ∨ ch = 95

instance (ch : Nat) : Decidable (specLegalChar ch) := by
  unfold specLegalChar; infer_instance

/-! ## Volume and process state

The simulated disk is held as typed views of its disjoint regions, following
the layout of src/LibFS.c:21-75: the two allocation bitmaps (byte lists),
the inode table (a record per inode number; the sector/offset arithmetic of
the source addresses exactly one record per number), data sectors holding
directory-entry arrays and data sectors holding file bytes. -/

/-- A directory entry (`dirent_t`, src/LibFS.c:91-94). -/
structure Dirent where
  fname : List Nat
  inode : Int
  deriving DecidableEq, Repr

/-- An inode record (`inode_t`, src/LibFS.c:57-61): `size` is the byte length
of a file or the entry count of a directory, `type` is 0 for a regular file
and 1 for a directory, `data` is the direct data-block array (the source only
ever uses indices below `MAX_SECTORS_PER_FILE`). -/
structure Inode where
  size : Nat
  type : Nat
  data : Nat → Nat

/-- An open-file session (`open_file_t`, src/LibFS.c:563-567): `inode = 0`
marks a free slot. -/
structure OpenFile where
  inode : Int
  size : Nat
  pos : Nat
  deriving DecidableEq, Repr

/-- Pointwise update of a `Nat`-keyed map. -/
def upd {α : Type} (f : Nat → α) (i : Nat) (v : α) : Nat → α :=
  fun j => if j = i then v else f j

/-- Pointwise update of an `Int`-keyed map. -/
def updI {α : Type} (f : Int → α) (i : Int) (v : α) : Int → α :=
  fun j => if j = i then v else f j

/-- The volume and process state the embedded operations act on;
`openFiles` is the process-wide open file table (src/LibFS.c:568). -/
structure FSState where
  inodeBitmap : List Nat
  sectorBitmap : List Nat
  inodes : Int → Inode
  direntSectors : Nat → Nat → Dirent
  byteSectors : Nat → List Nat
  openFiles : Nat → OpenFile

/-- Content a zeroed dirent slot reads back as (fresh dirent sectors are
`memset` to 0, src/LibFS.c:396): empty name, inode 0. -/
def zeroDirent : Dirent := ⟨[], 0⟩

/-- A zero-filled data sector (src/LibFS.c:959). -/
def zeroSector : List Nat := List.replicate SECTOR_SIZE 0

/-! ## Directory lookup (src/LibFS.c:227-265) -/

/-- Inner `for (i = 0; i < DIRENTS_PER_SECTOR; i++)` scan of
`find_child_inode` (src/LibFS.c:246-259), including the source's
`if (i > nentries) break` bound; `fuel` is the number of slots left before
the `DIRENTS_PER_SECTOR` loop bound. -/
def fcScan (sec : Nat → Dirent) (nentries : Nat) (fname : List Nat) :
    Nat → Nat → Option Dirent
  | 0, _ => none
  | fuel + 1, i =>
    if nentries < i then none
    else if (sec i).fname = fname then some (sec i)
    else fcScan sec nentries fname fuel (i + 1)

/-- Sector loop of `find_child_inode` (src/LibFS.c:241-262).  `fuel` bounds
the number of sector iterations; callers pass the entry count, which always
suffices because every iteration consumes `DIRENTS_PER_SECTOR` entries. -/
def fcGo (st : FSState) (p : Inode) (fname : List Nat) : Nat → Nat → Nat → Int
  | 0, _, _ => -1
  | fuel + 1, nentries, idx =>
    if nentries = 0 then -1
    else
      match fcScan (st.direntSectors (p.data idx)) nentries fname DIRENTS_PER_SECTOR 0 with
      | some d => d.inode
      | none => fcGo st p fname fuel (nentries - DIRENTS_PER_SECTOR) (idx + 1)

/-- `find_child_inode` (src/LibFS.c:227-265): the inode of the entry named
`fname` in directory `parent_inode`; `-1` when not found, `-2` when the
parent is not a directory.  The source's single-sector inode-table cache is a
pure read optimisation (it is refreshed whenever the looked-up inode lives in
a different sector) and is collapsed into direct record reads. -/
def find_child_inode (st : FSState) (parent_inode : Int) (fname : List Nat) : Int :=
  let parent := st.inodes parent_inode
  if parent.type ≠ 1 then -2
  else fcGo st parent fname parent.size parent.size 0

/-! ## Path resolution (src/LibFS.c:276-334) -/

/-- Token split performed by the `strsep(&lpath, "/")` loop
(src/LibFS.c:303): the byte list split at `'/'` (47), keeping empty tokens
(the loop skips them). -/
def splitPath : List Nat → List (List Nat)
  | [] => [[]]
  | c :: rest =>
    if c = 47 then [] :: splitPath rest
    else
      match splitPath rest with
      | [] => [[c]]
      | t :: ts => (c :: t) :: ts

/-- Per-token loop of `follow_path` (src/LibFS.c:303-321), with the
post-loop classification of src/LibFS.c:322-333. -/
def fpGo (st : FSState) :
    List (List Nat) → Int → Int → List Nat → Option (Int × Int × List Nat)
  | [], parent_inode, child_inode, last_fname =>
    if child_inode < -1 then none
    else if parent_inode = -1 ∧ child_inode = 0 then some (0, child_inode, last_fname)
    else some (parent_inode, child_inode, last_fname)
  | token :: ts, parent_inode, child_inode, last_fname =>
    if token = [] then fpGo st ts parent_inode child_inode last_fname
    else if illegal_filename token ≠ 0 then none
    else if child_inode < 0 then none
    else fpGo st ts child_inode (find_child_inode st child_inode token) token

/-- `follow_path` (src/LibFS.c:276-334): resolve an absolute path to
`(parent inode, child inode or -1, last segment name)`; `none` is the C
return value `-1` ("cannot follow the path").  The source copies at most
`MAX_PATH - 1` bytes of the path before tokenising. -/
def follow_path (st : FSState) (path : List Nat) : Option (Int × Int × List Nat) :=
  if path.headD 0 ≠ 47 then none
  else fpGo st (splitPath ((path.drop 1).take (MAX_PATH - 1))) (-1) 0 []

/-! ## Creating files and directories (src/LibFS.c:338-453) -/

/-- Tail of `add_inode` (src/LibFS.c:405-420): write the new entry at the
trailing offset of the dirent buffer (`strncpy` copies at most `MAX_NAME`
name bytes), bump the parent's size, persist buffer and inode. -/
def addDirent (st : FSState) (parent_inode : Int) (parent : Inode) (group : Nat)
    (buf : Nat → Dirent) (file : List Nat) (child_inode : Int) : Int × FSState :=
  let offset := parent.size - group * DIRENTS_PER_SECTOR
  let buf' := upd buf offset ⟨file.take MAX_NAME, child_inode⟩
  let st' := { st with direntSectors := upd st.direntSectors (parent.data group) buf' }
  (0, { st' with inodes := updI st'.inodes parent_inode { parent with size := parent.size + 1 } })

/-- `add_inode` (src/LibFS.c:338-421): allocate a child inode, zero its
record and set its type, then append a `(name, inode)` entry to the parent
directory, allocating a fresh dirent sector when the entry count is an exact
multiple of `DIRENTS_PER_SECTOR`.  Returns the C status code together with
the state as mutated so far (a failing step keeps the mutations already
persisted, exactly as the source does). -/
def add_inode (st : FSState) (type : Nat) (parent_inode : Int) (file : List Nat) :
    Int × FSState :=
  match bitmap_first_unused st.inodeBitmap INODE_BITMAP_SIZE with
  | none => (-1, st)
  | some (child_inode, ibm) =>
    let st1 : FSState :=
      { st with inodeBitmap := ibm,
                inodes := updI st.inodes (child_inode : Int) ⟨0, type, fun _ => 0⟩ }
    let parent := st1.inodes parent_inode
    if parent.type ≠ 1 then (-2, st1)
    else
      let group := parent.size / DIRENTS_PER_SECTOR
      if group * DIRENTS_PER_SECTOR = parent.size then
        match bitmap_first_unused st1.sectorBitmap SECTOR_BITMAP_SIZE with
        | none => (-1, st1)
        | some (newsec, sbm) =>
          addDirent { st1 with sectorBitmap := sbm } parent_inode
            { parent with data := upd parent.data group newsec } group
            (fun _ => zeroDirent) file (child_inode : Int)
      else
        addDirent st1 parent_inode parent group
          (st1.direntSectors (parent.data group)) file (child_inode : Int)

/-- `create_file_or_directory` (src/LibFS.c:425-453). -/
def create_file_or_directory (st : FSState) (type : Nat) (pathname : List Nat) :
    Int × FSState × Option OsErr :=
  match follow_path st pathname with
  | none => (-1, st, some OsErr.E_CREATE)
  | some (parent_inode, child_inode, last_fname) =>
    if 0 ≤ child_inode then (-1, st, some OsErr.E_CREATE)
    else
      let r := add_inode st type parent_inode last_fname
      if 0 ≤ r.1 then (0, r.2, none)
      else (-1, r.2, some OsErr.E_CREATE)

/-- `File_Create` (src/LibFS.c:730-734). -/
def File_Create (st : FSState) (file : List Nat) : Int × FSState × Option OsErr :=
  create_file_or_directory st 0 file

/-- `Dir_Create` (src/LibFS.c:1025-1029). -/
def Dir_Create (st : FSState) (path : List Nat) : Int × FSState × Option OsErr :=
  create_file_or_directory st 1 path

/-! ## Removing an inode (src/LibFS.c:458-560) -/

/-- Data-block reclamation loop of `remove_inode` (src/LibFS.c:485-488):
reset the sector-bitmap bit of `child->data[g]` for every `g < n`, where the
source computes `n` as `child->size / SECTOR_SIZE`. -/
def resetBlocks (c : Inode) : List Nat → Nat → List Nat
  | bm, 0 => bm
  | bm, g + 1 => bitmap_reset (resetBlocks c bm g) (c.data g)

/-- Replacement scan of `remove_inode` (src/LibFS.c:541-554), matching on the
stored inode number, with the same `i > nentries` bound as the lookup scan. -/
def riScan (sec : Nat → Dirent) (nentries : Nat) (child_inode : Int) :
    Nat → Nat → Option Nat
  | 0, _ => none
  | fuel + 1, i =>
    if nentries < i then none
    else if (sec i).inode = child_inode then some i
    else riScan sec nentries child_inode fuel (i + 1)

/-- Sector loop of the replacement scan (src/LibFS.c:536-556): find the slot
holding the removed child and overwrite it with the popped last entry.  The
source `assert(0)`s when the scan fails; that branch is the fuel-0 /
no-entries result `(-1, st)` (src/LibFS.c:557-559). -/
def riGo (parent : Inode) (child_inode : Int) (last_one : Dirent) :
    Nat → FSState → Nat → Nat → Int × FSState
  | 0, st, _, _ => (-1, st)
  | fuel + 1, st, nentries, idx =>
    if nentries = 0 then (-1, st)
    else
      match riScan (st.direntSectors (parent.data idx)) nentries child_inode
          DIRENTS_PER_SECTOR 0 with
      | some i =>
        let sec := st.direntSectors (parent.data idx)
        (0, { st with direntSectors := upd st.direntSectors (parent.data idx) (upd sec i last_one) })
      | none => riGo parent child_inode last_one fuel st (nentries - DIRENTS_PER_SECTOR) (idx + 1)

/-- `remove_inode` (src/LibFS.c:458-560): check the child's type, reclaim a
file's data blocks (`child->size / SECTOR_SIZE` of them) and the child's
inode bit, pop the parent's last directory entry (freeing its sector when it
was the only entry of its block) and, unless the child was that last entry,
overwrite the child's slot with it. -/
def remove_inode (st : FSState) (type : Nat) (parent_inode child_inode : Int) :
    Int × FSState :=
  let child := st.inodes child_inode
  if child.type ≠ type then (-3, st)
  else if type = 1 ∧ 0 < child.size then (-2, st)
  else
    let st1 := if type = 0 then
        { st with sectorBitmap := resetBlocks child st.sectorBitmap (child.size / SECTOR_SIZE) }
      else st
    let st2 := { st1 with inodeBitmap := bitmap_reset st1.inodeBitmap child_inode.toNat }
    let parent := st2.inodes parent_inode
    let newSize := parent.size - 1
    let group := newSize / DIRENTS_PER_SECTOR
    let offset := newSize - group * DIRENTS_PER_SECTOR
    let last_one := st2.direntSectors (parent.data group) offset
    let st3 := if offset = 0 then
        { st2 with sectorBitmap := bitmap_reset st2.sectorBitmap (parent.data group) }
      else st2
    let parent' := { parent with size := newSize }
    let st4 := { st3 with inodes := updI st3.inodes parent_inode parent' }
    if last_one.inode = child_inode then (0, st4)
    else riGo parent' child_inode last_one newSize st4 newSize 0

/-! ## Open file table (src/LibFS.c:563-588) -/

/-- `is_file_open` (src/LibFS.c:571-578): 1 when some table slot references
`inode`, else 0. -/
def is_file_open (tbl : Nat → OpenFile) (inode : Int) : Nat :=
  if (List.range MAX_OPEN_FILES).any (fun i => decide ((tbl i).inode = inode)) then 1 else 0

/-- `new_file_fd` (src/LibFS.c:581-588): the first unused descriptor, `-1`
when the table is full. -/
def new_file_fd (tbl : Nat → OpenFile) : Int :=
  match (List.range MAX_OPEN_FILES).find? (fun i => decide ((tbl i).inode ≤ 0)) with
  | some i => (i : Int)
  | none => -1

/-! ## Path-level file operations (src/LibFS.c:736-819) -/

/-- `File_Unlink` (src/LibFS.c:736-773). -/
def File_Unlink (st : FSState) (file : List Nat) : Int × FSState × Option OsErr :=
  match follow_path st file with
  | none => (-1, st, some OsErr.E_GENERAL)
  | some (parent_inode, child_inode, _) =>
    if 0 ≤ child_inode then
      if is_file_open st.openFiles child_inode ≠ 0 then (-1, st, some OsErr.E_FILE_IN_USE)
      else
        let r := remove_inode st 0 parent_inode child_inode
        if 0 ≤ r.1 then (0, r.2, none)
        else (-1, r.2, some OsErr.E_GENERAL)
    else (-1, st, some OsErr.E_NO_SUCH_FILE)

/-- `File_Open` (src/LibFS.c:775-819).  The descriptor is allocated before
the path is resolved.  When `follow_path` fails the source goes on to read an
uninitialised `child_inode`; that resolution failure is modelled as the
not-found branch it takes for a well-defined negative value. -/
def File_Open (st : FSState) (file : List Nat) : Int × FSState × Option OsErr :=
  let fd := new_file_fd st.openFiles
  if fd < 0 then (-1, st, some OsErr.E_TOO_MANY_OPEN_FILES)
  else
    match follow_path st file with
    | none => (-1, st, some OsErr.E_NO_SUCH_FILE)
    | some (_, child_inode, _) =>
      if 0 ≤ child_inode then
        let child := st.inodes child_inode
        if child.type ≠ 0 then (-1, st, some OsErr.E_GENERAL)
        else
          let tbl := upd st.openFiles fd.toNat ⟨child_inode, child.size, 0⟩
          (fd, { st with openFiles := tbl }, none)
      else (-1, st, some OsErr.E_NO_SUCH_FILE)

/-! ## Byte I/O (src/LibFS.c:821-1004) -/

/-- `memcpy(&data[offset], &buffer[bidx], n)` over byte lists, with `chunk`
the `n` source bytes. -/
def writeBytes (data : List Nat) (offset : Nat) (chunk : List Nat) : List Nat :=
  data.take offset ++ chunk ++ data.drop (offset + chunk.length)

/-- `File_Read` (src/LibFS.c:821-882): the C return value, the new state and
the bytes copied to the caller's buffer.  At most one data block is touched;
the copied range is clamped to end at the file size. -/
def File_Read (st : FSState) (fd : Nat) (size : Nat) :
    Int × FSState × List Nat × Option OsErr :=
  if MAX_OPEN_FILES < fd then (-1, st, [], some OsErr.E_BAD_FD)
  else if (st.openFiles fd).inode ≤ 0 then (-1, st, [], some OsErr.E_BAD_FD)
  else
    let f := st.openFiles fd
    if f.pos = f.size ∨ size = 0 then (0, st, [], none)
    else
      let inode := st.inodes f.inode
      let gidx := f.pos / SECTOR_SIZE
      let start_addr := gidx * SECTOR_SIZE
      let end_addr0 := start_addr + SECTOR_SIZE
      let end_addr := if inode.size < end_addr0 then inode.size else end_addr0
      let size1 := if end_addr < f.pos + size then end_addr - f.pos else size
      let offset := f.pos - start_addr
      let data := st.byteSectors (inode.data gidx)
      ((size1 : Int),
       { st with openFiles := upd st.openFiles fd { f with pos := f.pos + size1 } },
       (data.drop offset).take size1, none)

/-- Sector-at-a-time loop of `File_Write` (src/LibFS.c:927-974).  `fuel`
bounds the iteration count (each iteration consumes at least one byte, so the
wrapper's byte count suffices).  The C variable `size` equals `remain` at
every loop head (`size = remain;` is the loop's last statement), so a single
argument stands for both.  On failure the source returns `-1` having already
advanced `pos` and persisted the data sectors written so far, without writing
the inode back: the error result carries exactly that state. -/
def writeLoop (fd : Nat) (buffer : List Nat) :
    Nat → FSState → Inode → Nat → Nat → Except (FSState × OsErr) (FSState × Inode × Nat)
  | 0, st, ino, bidx, _ => .ok (st, ino, bidx)
  | fuel + 1, st, ino, bidx, remain =>
    if remain = 0 then .ok (st, ino, bidx)
    else
      let f := st.openFiles fd
      let gidx := f.pos / SECTOR_SIZE
      if gidx = MAX_SECTORS_PER_FILE then .error (st, OsErr.E_FILE_TOO_BIG)
      else
        let start_addr := gidx * SECTOR_SIZE
        let end_addr := start_addr + SECTOR_SIZE
        let size1 := if end_addr < f.pos + remain then end_addr - f.pos else remain
        let offset := f.pos - start_addr
        match (if start_addr < f.size then
                 some (st, st.byteSectors (ino.data gidx), ino)
               else
                 match bitmap_first_unused st.sectorBitmap SECTOR_BITMAP_SIZE with
                 | none => none
                 | some (newsec, sbm) =>
                   some ({ st with sectorBitmap := sbm }, zeroSector,
                         { ino with data := upd ino.data gidx newsec })) with
        | none => .error (st, OsErr.E_NO_SPACE)
        | some (st1, data, ino1) =>
          let data' := writeBytes data offset ((buffer.drop bidx).take size1)
          let st2 := { st1 with
            openFiles := upd st1.openFiles fd { f with pos := f.pos + size1 },
            byteSectors := upd st1.byteSectors (ino1.data gidx) data' }
          writeLoop fd buffer fuel st2 ino1 (bidx + size1) (remain - size1)

/-- `File_Write` (src/LibFS.c:884-983): run the sector loop, then, when the
cursor moved past the original file size, update the cached session size and
the persisted inode size (src/LibFS.c:976-981). -/
def File_Write (st : FSState) (fd : Nat) (buffer : List Nat) (size : Nat) :
    Int × FSState × Option OsErr :=
  if MAX_OPEN_FILES < fd then (-1, st, some OsErr.E_BAD_FD)
  else if (st.openFiles fd).inode ≤ 0 then (-1, st, some OsErr.E_BAD_FD)
  else if size = 0 then (0, st, none)
  else
    let f := st.openFiles fd
    let ino := st.inodes f.inode
    match writeLoop fd buffer size st ino 0 size with
    | .error (st', e) => (-1, st', some e)
    | .ok (st', ino', bidx) =>
      let f' := st'.openFiles fd
      if f'.size < f'.pos then
        ((bidx : Int),
         { st' with openFiles := upd st'.openFiles fd { f' with size := f'.pos },
                    inodes := updI st'.inodes f.inode { ino' with size := f'.pos } },
         none)
      else ((bidx : Int), st', none)

/-- `File_Seek` (src/LibFS.c:985-1004), with the source's descriptor checks
exactly as written: the open check indexes the table with `fd` first, and the
bound check is `fd > 0 || fd > MAX_OPEN_FILES`. -/
def File_Seek (st : FSState) (fd : Nat) (offset : Int) : Int × FSState × Option OsErr :=
  if is_file_open st.openFiles (st.openFiles fd).inode ≤ 0 then
    (-1, st, some OsErr.E_BAD_FD)
  else if 0 < fd ∨ MAX_OPEN_FILES < fd then (-1, st, some OsErr.E_GENERAL)
  else if ((st.openFiles fd).size : Int) < offset ∨ offset < 0 then
    (-1, st, some OsErr.E_SEEK_OUT_OF_BOUNDS)
  else
    (offset,
     { st with openFiles := upd st.openFiles fd { st.openFiles fd with pos := offset.toNat } },
     none)

/-! ## Directory reading (src/LibFS.c:1098-1154) -/

/-- Copy loop of `Dir_Read` (src/LibFS.c:1138-1151): from each used dirent
sector in turn, copy `min(DIRENTS_PER_SECTOR, remaining)` entries into the
caller's buffer. -/
def drCopy (st : FSState) (child : Inode) : Nat → Nat → Nat → List Dirent
  | 0, _, _ => []
  | fuel + 1, entries, i =>
    if entries = 0 then []
    else
      let copy := if entries < DIRENTS_PER_SECTOR then entries else DIRENTS_PER_SECTOR
      (List.range copy).map (st.direntSectors (child.data i)) ++
        drCopy st child fuel (entries - copy) (i + 1)

/-- `Dir_Read` (src/LibFS.c:1098-1154).  When `follow_path` fails the source
reads an uninitialised `child_inode`; that failure is modelled as the
not-found branch it takes for a well-defined negative value. -/
def Dir_Read (st : FSState) (path : List Nat) (size : Nat) :
    Int × Option OsErr × List Dirent :=
  match follow_path st path with
  | none => (-1, some OsErr.E_NO_SUCH_DIR, [])
  | some (_, child_inode, _) =>
    if child_inode < 0 then (-1, some OsErr.E_NO_SUCH_DIR, [])
    else
      let child := st.inodes child_inode
      if child.type ≠ 1 then (-1, some OsErr.E_GENERAL, [])
      else if size < child.size * sizeofDirent then (-1, some OsErr.E_BUFFER_TOO_SMALL, [])
      else ((child.size : Int), none, drCopy st child child.size child.size 0)

/-! ## Freshly formatted volume (src/LibFS.c:617-670) -/

/-- Volume state right after `FS_Boot` formats a fresh disk: inode bitmap
with bit 0 (the reserved root inode) set, sector bitmap with the metadata
prefix of `DATABLOCK_START_SECTOR = 255` bits set, inode 0 an empty root
directory, everything else zeroed, no open files.  The bitmap byte lists
span the whole sectors `bitmap_init` writes. -/
def fmtState : FSState where
  inodeBitmap := 128 :: List.replicate 511 0
  sectorBitmap := List.replicate 31 255 ++ 254 :: List.replicate 1504 0
  inodes := updI (fun _ => ⟨0, 0, fun _ => 0⟩) 0 ⟨0, 1, fun _ => 0⟩
  direntSectors := fun _ _ => zeroDirent
  byteSectors := fun _ => zeroSector
  openFiles := fun _ => ⟨0, 0, 0⟩

/-- Harness glue for the round-trip claim: call `File_Read` repeatedly with a
sector-sized request, accumulating the returned bytes, until it returns 0 (or
fails, or `fuel` runs out). -/
def readAll (fd : Nat) : Nat → FSState → List Nat → List Nat × FSState
  | 0, st, acc => (acc, st)
  | fuel + 1, st, acc =>
    let r := File_Read st fd SECTOR_SIZE
    if r.1 ≤ 0 then (acc, r.2.1)
    else readAll fd fuel r.2.1 (acc ++ r.2.2.1)

/-! ## Concrete scenario states used to settle individual claims -/

/-- The formatted volume after `File_Create "/a"` (inode 1). -/
def stateA : FSState := (File_Create fmtState [47, 97]).2.1

/-- `stateA` after `File_Create "/b"` (inode 2). -/
def stateB : FSState := (File_Create stateA [47, 98]).2.1

/-- `stateB` after `File_Unlink "/b"`: the root directory holds one valid
entry again, but the popped slot at entry index 1 is not cleared on disk. -/
def stateU : FSState := (File_Unlink stateB [47, 98]).2.1

/-- A volume holding one file `"f"` (inode 1) of size 1 byte whose single
data block is sector 255; the root's dirent sector is 256.  Bitmaps are the
formatted prefix plus those two sectors. -/
def oneByteFileState : FSState where
  inodeBitmap := 192 :: List.replicate 511 0
  sectorBitmap := List.replicate 32 255 ++ 128 :: List.replicate 1503 0
  inodes := updI (updI (fun _ => ⟨0, 0, fun _ => 0⟩) 0 ⟨1, 1, upd (fun _ => 0) 0 256⟩) 1
    ⟨1, 0, upd (fun _ => 0) 0 255⟩
  direntSectors := upd (fun _ _ => zeroDirent) 256 (upd (fun _ => zeroDirent) 0 ⟨[102], 1⟩)
  byteSectors := fun _ => zeroSector
  openFiles := fun _ => ⟨0, 0, 0⟩

/-- `oneByteFileState` with two open sessions: descriptor 0 on inode 1 and
descriptor 1 on inode 2, both of cached size 10. -/
def twoSessionState : FSState :=
  { oneByteFileState with
    openFiles := upd (upd (fun _ => ⟨0, 0, 0⟩) 0 ⟨1, 10, 0⟩) 1 ⟨2, 10, 0⟩ }

/-- The formatted volume with every open-file slot occupied by inode 1. -/
def fullTableState : FSState :=
  { fmtState with openFiles := fun _ => ⟨1, 0, 0⟩ }

/-- A freshly created empty file (inode 1) open on descriptor 0, with an
all-free (shallow) sector bitmap of 64 bits. -/
def freshFileState : FSState where
  inodeBitmap := [192]
  sectorBitmap := List.replicate 8 0
  inodes := updI (fun _ => ⟨0, 0, fun _ => 0⟩) 1 ⟨0, 0, fun _ => 0⟩
  direntSectors := fun _ _ => zeroDirent
  byteSectors := fun _ => zeroSector
  openFiles := upd (fun _ => ⟨0, 0, 0⟩) 0 ⟨1, 0, 0⟩

/-- `oneByteFileState` with its file (inode 1, size 1) open on descriptor 0,
the cached session size agreeing with the inode. -/
def oneOpenFileState : FSState :=
  { oneByteFileState with openFiles := upd (fun _ => ⟨0, 0, 0⟩) 0 ⟨1, 1, 0⟩ }

/-- An empty file (inode 1) open on descriptor 0 of a volume whose sector
bitmap has exactly one free bit (global bit 7): the scan finds bit 7 free in
the first byte and runs off the end of the byte list otherwise, behaving as
on a disk whose every other sector is in use. -/
def oneFreeSectorState : FSState where
  inodeBitmap := [192]
  sectorBitmap := [254]
  inodes := updI (fun _ => ⟨0, 0, fun _ => 0⟩) 1 ⟨0, 0, fun _ => 0⟩
  direntSectors := fun _ _ => zeroDirent
  byteSectors := fun _ => zeroSector
  openFiles := upd (fun _ => ⟨0, 0, 0⟩) 0 ⟨1, 0, 0⟩

/-! ### Map update laws -/

lemma upd_same {α : Type} (f : Nat → α) (i : Nat) (v : α) : upd f i v i = v := by
  simp [upd]

lemma upd_other {α : Type} (f : Nat → α) (i j : Nat) (v : α) (h : j ≠ i) :
    upd f i v j = f j := by
  simp [upd, h]

lemma updI_same {α : Type} (f : Int → α) (i : Int) (v : α) : updI f i v i = v := by
  simp [updI]

lemma updI_other {α : Type} (f : Int → α) (i j : Int) (v : α) (h : j ≠ i) :
    updI f i v j = f j := by
  simp [updI, h]

/-! ### Numeric values of the layout constants -/

lemma DPS_eq : DIRENTS_PER_SECTOR = 25 := rfl

lemma SS_eq : SECTOR_SIZE = 512 := rfl

lemma MSPF_eq : MAX_SECTORS_PER_FILE = 30 := rfl

lemma MOF_eq : MAX_OPEN_FILES = 256 := rfl

lemma sizeofDirent_eq : sizeofDirent = 20 := rfl

lemma SBS_eq : SECTOR_BITMAP_SIZE = 1250 := rfl

/-! ### Byte-level facts, discharged by enumeration -/

lemma ffz_spec : ∀ b < 255, ffz b < 8 ∧ b &&& BYTE1.getD (ffz b) 0 = 0 := by decide

lemma byte_restore : ∀ b < 256, ∀ k < 8, b &&& BYTE1.getD k 0 = 0 →
    (b ||| BYTE1.getD k 0) &&& BYTE0.getD k 0 = b := by decide

lemma byte_set_lt : ∀ b < 256, ∀ k < 8, b ||| BYTE1.getD k 0 < 256 := by decide

lemma byte_set_self : ∀ b < 256, ∀ k < 8,
    (b ||| BYTE1.getD k 0) &&& BYTE1.getD k 0 ≠ 0 := by decide

lemma byte1_eq_pow (k : Nat) (hk : k < 8) : BYTE1.getD k 0 = 2 ^ (7 - k) := by
  interval_cases k <;> rfl

lemma lor_pow_land_pow (b m n : Nat) (h : m ≠ n) : (b ||| 2 ^ m) &&& 2 ^ n = b &&& 2 ^ n := by
  apply Nat.eq_of_testBit_eq
  intro i
  rw [Nat.testBit_land, Nat.testBit_land, Nat.testBit_lor]
  by_cases hi : i = n
  · have hm : (2 ^ m).testBit i = false := by
      rw [Nat.testBit_two_pow, decide_eq_false_iff_not]
      omega
    rw [hm]
    simp
  · have hn : (2 ^ n).testBit i = false := by
      rw [Nat.testBit_two_pow, decide_eq_false_iff_not]
      omega
    rw [hn]
    simp

lemma byte_set_other (b k j : Nat) (hk : k < 8) (hj : j < 8) (hne : j ≠ k) :
    (b ||| BYTE1.getD k 0) &&& BYTE1.getD j 0 = b &&& BYTE1.getD j 0 := by
  rw [byte1_eq_pow k hk, byte1_eq_pow j hj]
  exact lor_pow_land_pow b _ _ (by omega)

lemma byte_count_set : ∀ b < 256, ∀ k < 8, b &&& BYTE1.getD k 0 = 0 →
    byteZeroCount (b ||| BYTE1.getD k 0) + 1 = byteZeroCount b := by decide

lemma byte_count_pos : ∀ b < 256, byteZeroCount b ≠ 0 → b < 255 := by decide

lemma byte_full_bits : ∀ k < 8, (255 : Nat) &&& BYTE1.getD k 0 ≠ 0 := by decide

lemma byte_all_bits_full : ∀ b < 256, (∀ k < 8, b &&& BYTE1.getD k 0 ≠ 0) → b = 255 := by
  decide

/-! ### List helpers -/

lemma set_getD_self : ∀ (l : List Nat) (p : Nat), p < l.length → l.set p (l.getD p 0) = l := by
  intro l
  induction l with
  | nil => intro p h; simp at h
  | cons b rest ih =>
    intro p h
    cases p with
    | zero => simp [List.set]
    | succ q =>
      simp only [List.set, List.getD_cons_succ]
      rw [ih q (by simpa using h)]

lemma bitGet_cons_add8 (b : Nat) (rest : List Nat) (i : Nat) :
    bitGet (b :: rest) (i + 8) = bitGet rest i := by
  unfold bitGet
  rw [Nat.add_div_right i (by norm_num), Nat.add_mod_right]
  simp [List.getD_cons_succ]

lemma bitGet_cons_lt (b : Nat) (rest : List Nat) (i : Nat) (h : i < 8) :
    bitGet (b :: rest) i = decide (b &&& BYTE1.getD (i % 8) 0 ≠ 0) := by
  unfold bitGet
  rw [Nat.div_eq_of_lt h]
  simp [List.getD_cons_zero]

/-! ### Specification of `bitmap_first_unused` and `bitmap_reset` -/

lemma bfuGo_some_spec : ∀ (l : List Nat) (nbits idx : Nat) (l' : List Nat),
    wfBytes l → bfuGo nbits l = some (idx, l') →
    idx / 8 < nbits ∧ idx / 8 < l.length ∧
    bitGet l idx = false ∧
    l' = l.set (idx / 8) (l.getD (idx / 8) 0 ||| BYTE1.getD (idx % 8) 0) := by
  intro l
  induction l with
  | nil => intro nbits idx l' _ h; simp [bfuGo] at h
  | cons b rest ih =>
    intro nbits idx l' hwf h
    have hb : b < 256 := hwf b (List.mem_cons_self b rest)
    unfold bfuGo at h
    by_cases hn : nbits = 0
    · simp [hn] at h
    · rw [if_neg hn] at h
      by_cases hlt : b < 255
      · rw [if_pos hlt] at h
        injection h with h
        injection h with h1 h2
        obtain ⟨hk8, hkz⟩ := ffz_spec b hlt
        subst h1
        have hdiv : ffz b / 8 = 0 := Nat.div_eq_of_lt hk8
        have hmod : ffz b % 8 = ffz b := Nat.mod_eq_of_lt hk8
        refine ⟨by omega, by rw [hdiv]; simp, ?_, ?_⟩
        · rw [bitGet_cons_lt b rest _ hk8, hmod, hkz]
          simp
        · rw [← h2, hdiv, hmod]
          rfl
      · rw [if_neg hlt] at h
        cases hrec : bfuGo (nbits - 1) rest with
        | none => rw [hrec] at h; simp at h
        | some p =>
          rw [hrec] at h
          rw [Option.map_some'] at h
          injection h with h
          obtain ⟨i, l''⟩ := p
          injection h with h1 h2
          have hwf' : wfBytes rest := fun x hx => hwf x (List.mem_cons_of_mem b hx)
          obtain ⟨hd1, hd2, hd3, hd4⟩ := ih (nbits - 1) i l'' hwf' hrec
          subst h1
          have hdiv : (i + 8) / 8 = i / 8 + 1 := Nat.add_div_right i (by norm_num)
          have hmod : (i + 8) % 8 = i % 8 := Nat.add_mod_right i 8
          refine ⟨by omega, by simp only [List.length_cons]; omega, ?_, ?_⟩
          · rw [bitGet_cons_add8]; exact hd3
          · rw [← h2, hd4, hdiv, hmod]
            rfl

lemma bfuGo_none_iff : ∀ (l : List Nat) (nbits : Nat), wfBytes l →
    (bfuGo nbits l = none ↔ ∀ j < nbits, j < l.length → l.getD j 0 = 255) := by
  intro l
  induction l with
  | nil => intro nbits _; simp [bfuGo]
  | cons b rest ih =>
    intro nbits hwf
    have hb : b < 256 := hwf b (List.mem_cons_self b rest)
    have hwf' : wfBytes rest := fun x hx => hwf x (List.mem_cons_of_mem b hx)
    unfold bfuGo
    by_cases hn : nbits = 0
    · simp [hn]
    · rw [if_neg hn]
      by_cases hlt : b < 255
      · rw [if_pos hlt]
        simp only [reduceCtorEq, false_iff]
        intro hall
        have := hall 0 (Nat.pos_of_ne_zero hn) (by simp)
        simp [List.getD_cons_zero] at this
        omega
      · rw [if_neg hlt]
        have hb255 : b = 255 := by omega
        have hmap : (bfuGo (nbits - 1) rest).map (fun p => (p.1 + 8, b :: p.2)) = none ↔
            bfuGo (nbits - 1) rest = none := by
          cases bfuGo (nbits - 1) rest <;> simp
        rw [hmap, ih (nbits - 1) hwf']
        constructor
        · intro hall j hj hjl
          cases j with
          | zero => simpa [List.getD_cons_zero] using hb255
          | succ q =>
            rw [List.getD_cons_succ]
            exact hall q (by omega) (by simpa using hjl)
        · intro hall j hj hjl
          have := hall (j + 1) (by omega) (by simpa using hjl)
          simpa [List.getD_cons_succ] using this

lemma freeBits_pos_some : ∀ (l : List Nat) (nbits : Nat), wfBytes l →
    0 < freeBits l nbits → (bfuGo nbits l).isSome := by
  intro l
  induction l with
  | nil => intro nbits _ h; cases nbits <;> simp [freeBits] at h
  | cons b rest ih =>
    intro nbits hwf h
    have hb : b < 256 := hwf b (List.mem_cons_self b rest)
    have hwf' : wfBytes rest := fun x hx => hwf x (List.mem_cons_of_mem b hx)
    cases nbits with
    | zero => simp [freeBits] at h
    | succ n =>
      unfold bfuGo
      rw [if_neg (by omega)]
      by_cases hlt : b < 255
      · simp [hlt]
      · rw [if_neg hlt]
        have hbz : byteZeroCount b = 0 := by
          by_contra hc
          exact hlt (byte_count_pos b hb hc)
        simp only [freeBits, hbz, Nat.zero_add] at h
        have := ih n hwf' h
        simp only [Nat.succ_sub_one]
        cases hrec : bfuGo n rest with
        | none => rw [hrec] at this; simp at this
        | some p => simp

lemma bfu_freeBits_succ : ∀ (l : List Nat) (nbits idx : Nat) (l' : List Nat),
    wfBytes l → bfuGo nbits l = some (idx, l') →
    freeBits l' nbits + 1 = freeBits l nbits := by
  intro l
  induction l with
  | nil => intro nbits idx l' _ h; simp [bfuGo] at h
  | cons b rest ih =>
    intro nbits idx l' hwf h
    have hb : b < 256 := hwf b (List.mem_cons_self b rest)
    have hwf' : wfBytes rest := fun x hx => hwf x (List.mem_cons_of_mem b hx)
    unfold bfuGo at h
    cases nbits with
    | zero => simp at h
    | succ n =>
      rw [if_neg (by omega)] at h
      by_cases hlt : b < 255
      · rw [if_pos hlt] at h
        injection h with h
        injection h with h1 h2
        obtain ⟨hk8, hkz⟩ := ffz_spec b hlt
        rw [← h2]
        show byteZeroCount (b ||| BYTE1.getD (ffz b) 0) + freeBits rest n + 1 =
          byteZeroCount b + freeBits rest n
        have := byte_count_set b hb (ffz b) hk8 hkz
        omega
      · rw [if_neg hlt] at h
        cases hrec : bfuGo (n + 1 - 1) rest with
        | none => rw [hrec] at h; simp at h
        | some p =>
          rw [hrec] at h
          rw [Option.map_some'] at h
          injection h with h
          obtain ⟨i, l''⟩ := p
          injection h with h1 h2
          rw [← h2]
          show byteZeroCount b + freeBits l'' n + 1 = byteZeroCount b + freeBits rest n
          have := ih n i l'' hwf' (by simpa using hrec)
          omega

lemma getD_set_self : ∀ (l : List Nat) (p : Nat) (v : Nat), p < l.length →
    (l.set p v).getD p 0 = v := by
  intro l
  induction l with
  | nil => intro p v h; simp at h
  | cons b rest ih =>
    intro p v h
    cases p with
    | zero => rfl
    | succ q => exact ih q v (by simpa using h)

lemma getD_set_ne : ∀ (l : List Nat) (p q v : Nat), q ≠ p →
    (l.set p v).getD q 0 = l.getD q 0 := by
  intro l
  induction l with
  | nil => intro p q v _; simp
  | cons b rest ih =>
    intro p q v hne
    cases p with
    | zero =>
      cases q with
      | zero => exact absurd rfl hne
      | succ m => rfl
    | succ pp =>
      cases q with
      | zero => rfl
      | succ m => exact ih pp m v (by omega)

lemma wf_getD (l : List Nat) (p : Nat) (hwf : wfBytes l) (hp : p < l.length) :
    l.getD p 0 < 256 := by
  rw [List.getD_eq_getElem l 0 hp]
  exact hwf _ (List.getElem_mem hp)

lemma bfu_bits (l : List Nat) (nbits idx : Nat) (l' : List Nat)
    (hwf : wfBytes l) (h : bfuGo nbits l = some (idx, l')) :
    bitGet l' idx = true ∧ ∀ j, j ≠ idx → bitGet l' j = bitGet l j := by
  obtain ⟨hn, hlen, hfree, hset⟩ := bfuGo_some_spec l nbits idx l' hwf h
  have hk8 : idx % 8 < 8 := Nat.mod_lt _ (by norm_num)
  have hold : l.getD (idx / 8) 0 < 256 := wf_getD l _ hwf hlen
  have hself : (l.set (idx / 8) (l.getD (idx / 8) 0 ||| BYTE1.getD (idx % 8) 0)).getD
      (idx / 8) 0 = l.getD (idx / 8) 0 ||| BYTE1.getD (idx % 8) 0 :=
    getD_set_self l _ _ hlen
  constructor
  · rw [hset]
    unfold bitGet
    rw [hself]
    simpa using byte_set_self _ hold _ hk8
  · intro j hj
    rw [hset]
    by_cases hq : j / 8 = idx / 8
    · have hm : j % 8 ≠ idx % 8 := by
        intro he
        apply hj
        have h1 := Nat.div_add_mod j 8
        have h2 := Nat.div_add_mod idx 8
        omega
      unfold bitGet
      rw [hq, hself]
      rw [byte_set_other _ _ _ hk8 (Nat.mod_lt _ (by norm_num)) hm]
    · unfold bitGet
      rw [getD_set_ne l _ _ _ hq]

lemma bfu_restore (l : List Nat) (nbits idx : Nat) (l' : List Nat)
    (hwf : wfBytes l) (h : bfuGo nbits l = some (idx, l')) :
    bitmap_reset l' idx = l := by
  obtain ⟨hn, hlen, hfree, hset⟩ := bfuGo_some_spec l nbits idx l' hwf h
  have hk8 : idx % 8 < 8 := Nat.mod_lt _ (by norm_num)
  have hold : l.getD (idx / 8) 0 < 256 := wf_getD l _ hwf hlen
  have hz : l.getD (idx / 8) 0 &&& BYTE1.getD (idx % 8) 0 = 0 := by
    unfold bitGet at hfree
    simpa using hfree
  unfold bitmap_reset
  rw [hset, getD_set_self l _ _ hlen, byte_restore _ hold _ hk8 hz, List.set_set]
  exact set_getD_self l _ hlen

lemma bfu_wf (l : List Nat) (nbits idx : Nat) (l' : List Nat)
    (hwf : wfBytes l) (h : bfuGo nbits l = some (idx, l')) : wfBytes l' := by
  obtain ⟨hn, hlen, hfree, hset⟩ := bfuGo_some_spec l nbits idx l' hwf h
  have hk8 : idx % 8 < 8 := Nat.mod_lt _ (by norm_num)
  have hold : l.getD (idx / 8) 0 < 256 := wf_getD l _ hwf hlen
  intro x hx
  rw [hset] at hx
  rcases List.mem_or_eq_of_mem_set hx with hmem | hv
  · exact hwf x hmem
  · rw [hv]
    exact byte_set_lt _ hold _ hk8

lemma bfu_idx_lt (l : List Nat) (nbits idx : Nat) (l' : List Nat)
    (hwf : wfBytes l) (h : bfuGo nbits l = some (idx, l')) :
    idx / 8 < nbits ∧ idx / 8 < l.length :=
  ⟨(bfuGo_some_spec l nbits idx l' hwf h).1, (bfuGo_some_spec l nbits idx l' hwf h).2.1⟩

/-- C4: `bitmap_first_unused` never returns an index whose bit was already
set; it sets the returned bit (leaving every other bit unchanged) in the
bitmap it persists; calling `bitmap_reset` on that index immediately
afterwards restores the bitmap exactly; and it returns `none` (the C `-1`,
`NotFound`) precisely when every bit in the scanned byte range is already
set. -/
theorem bitmap_alloc_roundtrip (bm : List Nat) (nbits : Nat) (hwf : wfBytes bm) :
    (∀ idx bm', bitmap_first_unused bm nbits = some (idx, bm') →
      bitGet bm idx = false ∧
      bitGet bm' idx = true ∧
      (∀ j, j ≠ idx → bitGet bm' j = bitGet bm j) ∧
      bitmap_reset bm' idx = bm) ∧
    (bitmap_first_unused bm nbits = none ↔
      ∀ i < 8 * min nbits bm.length, bitGet bm i = true) := by
  constructor
  · intro idx bm' h
    refine ⟨(bfuGo_some_spec bm nbits idx bm' hwf h).2.2.1,
      (bfu_bits bm nbits idx bm' hwf h).1,
      (bfu_bits bm nbits idx bm' hwf h).2,
      bfu_restore bm nbits idx bm' hwf h⟩
  · rw [show bitmap_first_unused bm nbits = bfuGo nbits bm from rfl]
    rw [bfuGo_none_iff bm nbits hwf]
    constructor
    · intro hall i hi
      have hdiv : i / 8 < min nbits bm.length := by
        rw [Nat.div_lt_iff_lt_mul (by norm_num : (0:Nat) < 8)]
        omega
      have h255 := hall (i / 8) (by omega) (by omega)
      unfold bitGet
      rw [h255]
      simpa using byte_full_bits _ (Nat.mod_lt _ (by norm_num))
    · intro hall j hj hjl
      have hb : bm.getD j 0 < 256 := wf_getD bm j hwf hjl
      apply byte_all_bits_full _ hb
      intro k hk
      have hbit := hall (8 * j + k) (by
        have : j < min nbits bm.length := by omega
        omega)
      unfold bitGet at hbit
      rw [Nat.mul_add_div (by norm_num), Nat.mul_add_mod] at hbit
      rw [Nat.div_eq_of_lt hk, Nat.add_zero, Nat.mod_eq_of_lt hk] at hbit
      simpa using hbit

/-- C4 witness: the round-trip theorem applied at the concrete bitmap
`[255, 240]`, where the allocator hands out global bit 12. -/
theorem bitmap_alloc_roundtrip_witness :
    bitGet [255, 240] 12 = false ∧ bitGet [255, 248] 12 = true ∧
    bitmap_reset [255, 248] 12 = [255, 240] := by
  have h := (bitmap_alloc_roundtrip [255, 240] 2 (by decide)).1 12 [255, 248] (by decide)
  exact ⟨h.1, h.2.1, h.2.2.2⟩

/-- C1: the no-holes layout is maintained by create and remove, but lookup is
NOT confined to entry indices below `size`.  After the successful sequence
create `/a`, create `/b` (inode 2), unlink `/b` on a fresh volume, the root
directory has `size = 1` and its single valid entry (index 0) is `a`; yet
`find_child_inode` on the name `b` returns 2, matching the stale popped entry
stored at index 1 ≥ size — the scan bound `i > nentries` (src/LibFS.c:247)
inspects one slot past the entry count.  This contradicts the claim's lookup
confinement (and src/LibFS.c:557's own `assert`ed belief that scans stay
within the live entries). -/
theorem stale_dirent_matched_beyond_size :
    (File_Create fmtState [47, 97]).1 = 0 ∧
    (File_Create stateA [47, 98]).1 = 0 ∧
    (File_Unlink stateB [47, 98]).1 = 0 ∧
    (stateU.inodes 0).size = 1 ∧
    stateU.direntSectors ((stateU.inodes 0).data 0) 0 = ⟨[97], 1⟩ ∧
    stateU.direntSectors ((stateU.inodes 0).data 0) 1 = ⟨[98], 2⟩ ∧
    find_child_inode stateU 0 [98] = 2 := by
  refine ⟨?_, ?_, ?_, ?_, ?_, ?_, ?_⟩ <;> decide

/-- C3: the per-character charset restriction of `illegal_filename` is a
no-op — its range tests are AND-combined and mutually exclusive
(src/LibFS.c:209-211) — so names made of characters outside the legal set
(here `*` = 42, `!` = 33, `@` = 64, `#` = 35) pass the legality check with
result 0, and path resolution resolves such a segment like any other name
instead of rejecting the path.  Only the length bound works (a 16-byte name
is rejected). -/
theorem illegal_filename_rejects_no_character :
    illegal_filename [42] = 0 ∧ ¬ specLegalChar 42 ∧
    illegal_filename [33, 64, 35] = 0 ∧ ¬ specLegalChar 33 ∧
    illegal_filename (List.replicate MAX_NAME 97) = 1 ∧
    follow_path fmtState [47, 42] = some (0, -1, [42]) := by
  refine ⟨?_, ?_, ?_, ?_, ?_, ?_⟩ <;> decide

/-- C5: unlinking a file whose size is not a multiple of `SECTOR_SIZE` leaks
its trailing data block: `remove_inode` frees `size / SECTOR_SIZE` blocks
(floor, src/LibFS.c:485), not the ⌈size / SECTOR_SIZE⌉ blocks the file
occupies.  For a 1-byte file on data block 255, `File_Unlink` succeeds and
frees the inode bit, yet bit 255 of the sector bitmap stays set. -/
theorem unlink_leaks_partial_block :
    (oneByteFileState.inodes 1).size = 1 ∧
    (oneByteFileState.inodes 1).data 0 = 255 ∧
    bitGet oneByteFileState.sectorBitmap 255 = true ∧
    (1 + SECTOR_SIZE - 1) / SECTOR_SIZE = 1 ∧
    (File_Unlink oneByteFileState [47, 102]).1 = 0 ∧
    bitGet (File_Unlink oneByteFileState [47, 102]).2.1.inodeBitmap 1 = false ∧
    bitGet (File_Unlink oneByteFileState [47, 102]).2.1.sectorBitmap 255 = true := by
  refine ⟨?_, ?_, ?_, ?_, ?_, ?_, ?_⟩ <;> decide

/-- C6: `File_Seek` rejects every positive descriptor: its bound check reads
`fd > 0 || fd > MAX_OPEN_FILES` (src/LibFS.c:992) instead of the intended
`fd < 0 || fd > MAX_OPEN_FILES`.  With descriptor 1 occupied (inode 2,
cached size 10) and the in-range offset 5, the call fails with `E_GENERAL`
and leaves the state unchanged, where the claim requires success. -/
theorem seek_rejects_positive_fd :
    twoSessionState.openFiles 1 = ⟨2, 10, 0⟩ ∧
    File_Seek twoSessionState 1 5 = (-1, twoSessionState, some OsErr.E_GENERAL) ∧
    (File_Seek twoSessionState 0 5).1 = 5 := by
  refine ⟨by decide, by rfl, by decide⟩

lemma is_file_open_pos (tbl : Nat → OpenFile) (v : Int)
    (h : ∃ i, i < MAX_OPEN_FILES ∧ (tbl i).inode = v) : is_file_open tbl v = 1 := by
  unfold is_file_open
  rw [if_pos]
  obtain ⟨i, hi, he⟩ := h
  rw [List.any_eq_true]
  exact ⟨i, List.mem_range.mpr hi, by simp [he]⟩

lemma new_file_fd_full (tbl : Nat → OpenFile)
    (h : ∀ i < MAX_OPEN_FILES, 0 < (tbl i).inode) : new_file_fd tbl = -1 := by
  unfold new_file_fd
  have hnone : (List.range MAX_OPEN_FILES).find? (fun i => decide ((tbl i).inode ≤ 0)) = none := by
    rw [List.find?_eq_none]
    intro i hi
    rw [List.mem_range] at hi
    have := h i hi
    simp only [decide_eq_true_eq]
    omega
  rw [hnone]

/-- C9: `File_Open` asks `new_file_fd` for a slot before resolving the path
(src/LibFS.c:778-783), so with all `MAX_OPEN_FILES` slots occupied it fails
with `E_TOO_MANY_OPEN_FILES` for every path — including paths that do not
resolve to an existing file — leaving the state unchanged. -/
theorem open_table_full_precedence (st : FSState)
    (h : ∀ i < MAX_OPEN_FILES, 0 < (st.openFiles i).inode) (path : List Nat) :
    File_Open st path = (-1, st, some OsErr.E_TOO_MANY_OPEN_FILES) := by
  have hfd := new_file_fd_full st.openFiles h
  simp only [File_Open, hfd]
  norm_num

/-- C9 witness: the precedence theorem applied to the concrete full table, on
the path `"/x"`, which names no existing file. -/
theorem open_table_full_precedence_witness :
    File_Open fullTableState [47, 120] = (-1, fullTableState, some OsErr.E_TOO_MANY_OPEN_FILES) ∧
    follow_path fullTableState [47, 120] = some (0, -1, [120]) :=
  ⟨open_table_full_precedence fullTableState (fun _ _ => Int.one_pos) [47, 120], by decide⟩

/-- C7: unlinking a file that has at least one occupied open session
referencing its inode fails with `E_FILE_IN_USE` and returns the volume state
unchanged — `File_Unlink` consults `is_file_open` before any mutation
(src/LibFS.c:746-750). -/
theorem unlink_open_file_rejected (st : FSState) (path : List Nat)
    (parent_inode child_inode : Int) (name : List Nat)
    (hres : follow_path st path = some (parent_inode, child_inode, name))
    (hchild : 0 ≤ child_inode)
    (hopen : ∃ i, i < MAX_OPEN_FILES ∧ (st.openFiles i).inode = child_inode) :
    File_Unlink st path = (-1, st, some OsErr.E_FILE_IN_USE) := by
  have hio := is_file_open_pos st.openFiles child_inode hopen
  simp only [File_Unlink, hres, hio]
  norm_num [hchild]

/-- C7 witness: the rejection theorem applied to the volume holding the
1-byte file `"f"` (inode 1) with two sessions open, descriptor 0 referencing
inode 1. -/
theorem unlink_open_file_rejected_witness :
    File_Unlink twoSessionState [47, 102] = (-1, twoSessionState, some OsErr.E_FILE_IN_USE) :=
  unlink_open_file_rejected twoSessionState [47, 102] 0 1 [102] (by decide) (by decide)
    ⟨0, by decide, by decide⟩

/-- C10 counterexample: a `File_Write` that fails mid-loop violates
`0 ≤ pos ≤ size`.  On a volume with one free sector, writing 513 bytes to an
empty open file consumes the free sector for the first 512 bytes, then fails
with `E_NO_SPACE`, leaving the session cursor at 512 while the cached size is
still 0. -/
theorem write_failure_breaks_cursor_invariant :
    oneFreeSectorState.openFiles 0 = ⟨1, 0, 0⟩ ∧
    (File_Write oneFreeSectorState 0 (List.replicate 513 7) 513).2.2 =
      some OsErr.E_NO_SPACE ∧
    ((File_Write oneFreeSectorState 0 (List.replicate 513 7) 513).2.1.openFiles 0).pos = 512 ∧
    ((File_Write oneFreeSectorState 0 (List.replicate 513 7) 513).2.1.openFiles 0).size = 0 := by
  refine ⟨?_, ?_, ?_, ?_⟩ <;> decide

/-! ### The `Dir_Read` copy loop -/

lemma drCopy_zero (st : FSState) (c : Inode) : ∀ fuel i, drCopy st c fuel 0 i = [] := by
  intro fuel i
  cases fuel with
  | zero => rfl
  | succ n => rfl

lemma drCopy_chunk (st : FSState) (c : Inode) (entries : List Dirent)
    (hlay : ∀ j < entries.length,
      st.direntSectors (c.data (j / DIRENTS_PER_SECTOR)) (j % DIRENTS_PER_SECTOR) =
        entries.getD j zeroDirent)
    (i copy : Nat) (hc25 : copy ≤ DIRENTS_PER_SECTOR)
    (hbound : DIRENTS_PER_SECTOR * i + copy ≤ entries.length) :
    (List.range copy).map (st.direntSectors (c.data i)) =
      (entries.drop (DIRENTS_PER_SECTOR * i)).take copy := by
  apply List.ext_getElem
  · simp only [List.length_map, List.length_range, List.length_take, List.length_drop]
    omega
  · intro g h1 h2
    simp only [List.getElem_map, List.getElem_range, List.getElem_take, List.getElem_drop]
    have hg : g < copy := by simpa using h1
    have hj : DIRENTS_PER_SECTOR * i + g < entries.length := by omega
    have hl := hlay (DIRENTS_PER_SECTOR * i + g) hj
    rw [Nat.mul_add_div (by decide), Nat.mul_add_mod] at hl
    rw [Nat.div_eq_of_lt (by omega), Nat.add_zero, Nat.mod_eq_of_lt (by omega)] at hl
    rw [hl, List.getD_eq_getElem entries zeroDirent hj]

lemma drCopy_spec (st : FSState) (c : Inode) (entries : List Dirent)
    (hlay : ∀ j < entries.length,
      st.direntSectors (c.data (j / DIRENTS_PER_SECTOR)) (j % DIRENTS_PER_SECTOR) =
        entries.getD j zeroDirent) :
    ∀ fuel i rem, rem + DIRENTS_PER_SECTOR * i = entries.length →
      rem ≤ DIRENTS_PER_SECTOR * fuel →
      drCopy st c fuel rem i = entries.drop (DIRENTS_PER_SECTOR * i) := by
  intro fuel
  induction fuel with
  | zero =>
    intro i rem h1 h2
    have hz : rem = 0 := by omega
    subst hz
    rw [drCopy_zero]
    symm
    apply List.drop_eq_nil_of_le
    omega
  | succ fuel ih =>
    intro i rem h1 h2
    by_cases hr : rem = 0
    · subst hr
      rw [drCopy_zero]
      symm
      apply List.drop_eq_nil_of_le
      omega
    · simp only [drCopy, if_neg hr]
      by_cases hlt : rem < DIRENTS_PER_SECTOR
      · rw [if_pos hlt]
        have hch := drCopy_chunk st c entries hlay i rem (by omega) (by omega)
        rw [Nat.sub_self, drCopy_zero, List.append_nil, hch]
        apply List.take_of_length_le
        simp only [List.length_drop]
        omega
      · rw [if_neg hlt]
        have hch := drCopy_chunk st c entries hlay i DIRENTS_PER_SECTOR (le_refl _) (by omega)
        have hrec := ih (i + 1) (rem - DIRENTS_PER_SECTOR)
          (by simp only [DPS_eq] at *; omega) (by simp only [DPS_eq] at *; omega)
        rw [hch, hrec]
        have hdd : entries.drop (DIRENTS_PER_SECTOR * (i + 1)) =
            (entries.drop (DIRENTS_PER_SECTOR * i)).drop DIRENTS_PER_SECTOR := by
          rw [List.drop_drop]
          congr 1
        rw [hdd]
        exact List.take_append_drop _ _

/-- C8: for an existing directory of `E` entries laid out per the no-holes
invariant, `Dir_Read` fails with `E_BUFFER_TOO_SMALL` when the buffer
capacity is below `E * sizeof(dirent_t)` bytes, and otherwise copies all `E`
entries into the buffer, in order, and returns `E`. -/
theorem dir_read_contract (st : FSState) (path : List Nat)
    (parent_inode child_inode : Int) (name : List Nat) (entries : List Dirent) (cap : Nat)
    (hres : follow_path st path = some (parent_inode, child_inode, name))
    (hchild : 0 ≤ child_inode)
    (hdir : (st.inodes child_inode).type = 1)
    (hlen : entries.length = (st.inodes child_inode).size)
    (hlay : ∀ j < entries.length,
      st.direntSectors ((st.inodes child_inode).data (j / DIRENTS_PER_SECTOR))
        (j % DIRENTS_PER_SECTOR) = entries.getD j zeroDirent) :
    (cap < (st.inodes child_inode).size * sizeofDirent →
      Dir_Read st path cap = (-1, some OsErr.E_BUFFER_TOO_SMALL, [])) ∧
    ((st.inodes child_inode).size * sizeofDirent ≤ cap →
      Dir_Read st path cap = (((st.inodes child_inode).size : Int), none, entries)) := by
  constructor <;> intro hcap
  · simp only [Dir_Read, hres]
    rw [if_neg (by omega), if_neg (by simp [hdir]), if_pos hcap]
  · simp only [Dir_Read, hres]
    rw [if_neg (by omega), if_neg (by simp [hdir]), if_neg (by omega)]
    have hc := drCopy_spec st (st.inodes child_inode) entries hlay
      (st.inodes child_inode).size 0 (st.inodes child_inode).size
      (by simp only [DPS_eq]; omega) (by simp only [DPS_eq]; omega)
    rw [hc]
    simp

/-- C8 witness: the contract applied to the root directory of the volume
holding the single file `"f"` (inode 1), with a 19-byte and a 20-byte
buffer. -/
theorem dir_read_contract_witness :
    Dir_Read oneByteFileState [47] 19 = (-1, some OsErr.E_BUFFER_TOO_SMALL, []) ∧
    Dir_Read oneByteFileState [47] 20 = (1, none, [⟨[102], 1⟩]) := by
  have h := dir_read_contract oneByteFileState [47] 0 0 [] [⟨[102], 1⟩] 19
    (by decide) (by decide) (by decide) (by decide) (by decide)
  have h' := dir_read_contract oneByteFileState [47] 0 0 [] [⟨[102], 1⟩] 20
    (by decide) (by decide) (by decide) (by decide) (by decide)
  exact ⟨h.1 (by decide), h'.2 (by decide)⟩

/-! ### Session cursor invariant -/

/-- C10 (amended): for the acting session, `0 ≤ pos ≤ cached size` is
established or preserved by every successfully completing operation:
`File_Open` initialises the cursor to 0, `File_Read` (from a consistent
session: cursor within the cached size, cached size equal to the inode size,
as the source `assert`s) clamps the copied range to end at the file size, a
successful `File_Write` raises the cached size to the cursor whenever the
cursor passed it, and `File_Seek` returns the offset it sets, rejecting
offsets outside `[0, size]`.  `0 ≤ pos` is inherent to the embedding.  A
`File_Write` failing mid-loop is the exception recorded in the
counterexample. -/
theorem session_cursor_invariant_success (st : FSState) (fd : Nat) :
    (∀ path fd' st', File_Open st path = (fd', st', none) →
      (st'.openFiles fd'.toNat).pos = 0) ∧
    (∀ n, (st.openFiles fd).pos ≤ (st.openFiles fd).size →
      (st.openFiles fd).size = (st.inodes (st.openFiles fd).inode).size →
      ((File_Read st fd n).2.1.openFiles fd).pos ≤
        ((File_Read st fd n).2.1.openFiles fd).size) ∧
    (∀ buffer n r st', (st.openFiles fd).pos ≤ (st.openFiles fd).size →
      File_Write st fd buffer n = (r, st', none) →
      (st'.openFiles fd).pos ≤ (st'.openFiles fd).size) ∧
    (∀ off r st' e, File_Seek st fd off = (r, st', e) → 0 ≤ r →
      ((st'.openFiles fd).pos : Int) = off ∧
      (st'.openFiles fd).pos ≤ (st'.openFiles fd).size) := by
  refine ⟨?_, ?_, ?_, ?_⟩
  · intro path fd' st' h
    simp only [File_Open] at h
    split_ifs at h with h1
    · simp at h
    · cases hfp : follow_path st path with
      | none => rw [hfp] at h; simp at h
      | some t =>
        obtain ⟨p, c, nm⟩ := t
        rw [hfp] at h
        simp only at h
        split_ifs at h with h2 h3
        · simp at h
        · have hp := congrArg (fun t => (t.2.1.openFiles t.1.toNat).pos) h
          simpa [upd_same] using hp.symm
        · simp at h
  · intro n hpos hsz
    have hdm := Nat.div_add_mod (st.openFiles fd).pos 512
    have hml := Nat.mod_lt (st.openFiles fd).pos (show 0 < 512 by norm_num)
    simp only [File_Read, SS_eq, upd_same]
    split_ifs with h1 h2 h3 h4 h5 <;> (try simp only [upd_same]) <;> omega
  · intro buffer n r st' hpos h
    simp only [File_Write] at h
    split_ifs at h with h1 h2 h3
    · simp at h
    · simp at h
    · have hst := congrArg (fun t => t.2.1) h
      dsimp only at hst
      rw [← hst]
      exact hpos
    · cases hw : writeLoop fd buffer n st (st.inodes (st.openFiles fd).inode) 0 n with
      | error p => rw [hw] at h; obtain ⟨a, b⟩ := p; simp at h
      | ok t =>
        obtain ⟨stL, inoL, bidx⟩ := t
        rw [hw] at h
        simp only at h
        split_ifs at h with h4
        · have hp := congrArg (fun t => (t.2.1.openFiles fd).pos) h
          have hs := congrArg (fun t => (t.2.1.openFiles fd).size) h
          simp only [upd_same] at hp hs
          try dsimp only at hp hs
          omega
        · have hst := congrArg (fun t => t.2.1) h
          dsimp only at hst
          rw [← hst]
          omega
  · intro off r st' e h hr
    simp only [File_Seek] at h
    split_ifs at h with h1 h2 h3
    · have := congrArg (fun t => t.1) h
      dsimp only at this
      omega
    · have := congrArg (fun t => t.1) h
      dsimp only at this
      omega
    · have := congrArg (fun t => t.1) h
      dsimp only at this
      omega
    · have hp := congrArg (fun t => (t.2.1.openFiles fd).pos) h
      have hs := congrArg (fun t => (t.2.1.openFiles fd).size) h
      simp only [upd_same] at hp hs
      try dsimp only at hp hs
      rw [not_or] at h3
      constructor
      · rw [← hp]
        exact Int.toNat_of_nonneg (by omega)
      · rw [← hp, ← hs]
        have h31 := h3.1
        omega

/-- C10 witness: the invariant theorem applied on the volume with its 1-byte
file open on descriptor 0 (cursor 0, cached size 1): reading one byte keeps
`pos ≤ size`, and seeking to offset 1 sets the cursor to 1. -/
theorem session_cursor_invariant_success_witness :
    ((File_Read oneOpenFileState 0 1).2.1.openFiles 0).pos ≤
      ((File_Read oneOpenFileState 0 1).2.1.openFiles 0).size ∧
    (((File_Seek oneOpenFileState 0 1).2.1.openFiles 0).pos : Int) = 1 := by
  constructor
  · exact (session_cursor_invariant_success oneOpenFileState 0).2.1 1 (by decide) (by decide)
  · exact ((session_cursor_invariant_success oneOpenFileState 0).2.2.2 1
      (File_Seek oneOpenFileState 0 1).1 (File_Seek oneOpenFileState 0 1).2.1
      (File_Seek oneOpenFileState 0 1).2.2 rfl (by decide)).1

/-! ### The `File_Write` loop on a fresh file -/

lemma writeLoop_zero (fd : Nat) (buffer : List Nat) :
    ∀ fuel st ino bidx, writeLoop fd buffer fuel st ino bidx 0 = .ok (st, ino, bidx) := by
  intro fuel st ino bidx
  cases fuel with
  | zero => rfl
  | succ n => rfl

/-- One full pass of the `File_Write` sector loop over a session whose cached
size is 0 (a freshly created file): every iteration allocates a fresh data
block, fills it from the buffer, and advances the cursor; the loop consumes
exactly `r` bytes.  `p` is the entry cursor (a multiple of `SECTOR_SIZE`). -/
lemma writeLoop_fresh (i : Int) (buffer : List Nat) :
    ∀ fuel r p st ino bidx,
      r ≤ fuel →
      1 ≤ r →
      st.openFiles 0 = ⟨i, 0, p⟩ →
      p % 512 = 0 →
      p + r ≤ 512 * 30 →
      wfBytes st.sectorBitmap →
      (r + 511) / 512 ≤ freeBits st.sectorBitmap SECTOR_BITMAP_SIZE →
      ∃ st' ino',
        writeLoop 0 buffer fuel st ino bidx r = .ok (st', ino', bidx + r) ∧
        st'.openFiles 0 = ⟨i, 0, p + r⟩ ∧
        (∀ fd', fd' ≠ 0 → st'.openFiles fd' = st.openFiles fd') ∧
        st'.inodes = st.inodes ∧
        st'.direntSectors = st.direntSectors ∧
        ino'.size = ino.size ∧ ino'.type = ino.type ∧
        (∀ g', g' < p / 512 → ino'.data g' = ino.data g') ∧
        wfBytes st'.sectorBitmap ∧
        (∀ s, bitGet st.sectorBitmap s = true → bitGet st'.sectorBitmap s = true) ∧
        (∀ s, bitGet st.sectorBitmap s = true → st'.byteSectors s = st.byteSectors s) ∧
        (∀ k, k < (r + 511) / 512 →
          bitGet st.sectorBitmap (ino'.data (p / 512 + k)) = false ∧
          bitGet st'.sectorBitmap (ino'.data (p / 512 + k)) = true ∧
          st'.byteSectors (ino'.data (p / 512 + k)) =
            writeBytes zeroSector 0
              ((buffer.drop (bidx + 512 * k)).take (min 512 (r - 512 * k)))) := by
  intro fuel
  induction fuel with
  | zero => intro r p st ino bidx hf hr; omega
  | succ fuel ih =>
    intro r p st ino bidx hf hr hsess hdvd hbound hwf hfree
    have hstart : p / SECTOR_SIZE * SECTOR_SIZE = p :=
      Nat.div_mul_cancel (Nat.dvd_of_mod_eq_zero (by simpa [SS_eq] using hdvd))
    -- the allocation of this iteration succeeds
    have hsome : (bfuGo SECTOR_BITMAP_SIZE st.sectorBitmap).isSome := by
      apply freeBits_pos_some st.sectorBitmap SECTOR_BITMAP_SIZE hwf
      omega
    obtain ⟨⟨newsec, sbm⟩, heq⟩ := Option.isSome_iff_exists.mp hsome
    have hbits := bfu_bits st.sectorBitmap SECTOR_BITMAP_SIZE newsec sbm hwf heq
    have hfresh := (bfuGo_some_spec st.sectorBitmap SECTOR_BITMAP_SIZE newsec sbm hwf heq).2.2.1
    have hwf2 := bfu_wf st.sectorBitmap SECTOR_BITMAP_SIZE newsec sbm hwf heq
    have hfb := bfu_freeBits_succ st.sectorBitmap SECTOR_BITMAP_SIZE newsec sbm hwf heq
    -- reduce one loop iteration
    simp only [writeLoop, hsess]
    rw [if_neg (by omega : ¬ r = 0)]
    simp only [SS_eq, MSPF_eq]
    rw [if_neg (by omega : ¬ p / 512 = 30)]
    simp only [SS_eq] at hstart
    rw [hstart]
    rw [if_neg (Nat.not_lt_zero _)]
    rw [show bitmap_first_unused st.sectorBitmap SECTOR_BITMAP_SIZE = some (newsec, sbm) from heq]
    simp only [Nat.sub_self, upd_same]
    by_cases h512 : 512 < r
    · -- a full sector is written, the loop continues
      rw [if_pos (by omega : p + 512 < p + r), Nat.add_sub_cancel_left]
      set data1 := writeBytes zeroSector 0 ((buffer.drop bidx).take 512) with hdata1
      set ino1 : Inode := { ino with data := upd ino.data (p / 512) newsec } with hino1
      set st2 : FSState :=
        { st with
          sectorBitmap := sbm,
          byteSectors := upd st.byteSectors newsec data1,
          openFiles := upd st.openFiles 0 ⟨i, 0, p + 512⟩ } with hst2
      have hsess2 : st2.openFiles 0 = ⟨i, 0, p + 512⟩ :=
        upd_same st.openFiles 0 ⟨i, 0, p + 512⟩
      have hrec := ih (r - 512) (p + 512) st2 ino1 (bidx + 512)
        (by omega) (by omega) hsess2 (by omega) (by omega) hwf2
        (by show (r - 512 + 511) / 512 ≤ freeBits sbm SECTOR_BITMAP_SIZE; omega)
      obtain ⟨st', ino', hres, hs1, hs2, hs3, hs4, hs5, hs6, hs7, hs8, hs9, hs10, hs11⟩ := hrec
      have hsbm_of : ∀ s, bitGet st.sectorBitmap s = true → bitGet sbm s = true := by
        intro s hs
        rcases eq_or_ne s newsec with hsn | hsn
        · rw [hsn]; exact hbits.1
        · rw [hbits.2 s hsn]; exact hs
      have hne_of : ∀ s, bitGet st.sectorBitmap s = true → s ≠ newsec := by
        intro s hs hcontr
        rw [hcontr, hfresh] at hs
        exact Bool.false_ne_true hs
      refine ⟨st', ino', ?_, ?_, ?_, ?_, ?_, ?_, ?_, ?_, ?_, ?_, ?_, ?_⟩
      · rw [show bidx + 512 + (r - 512) = bidx + r from by omega] at hres
        exact hres
      · rw [hs1]
        congr 1
        omega
      · intro fd' hfd'
        rw [hs2 fd' hfd']
        exact upd_other st.openFiles 0 fd' ⟨i, 0, p + 512⟩ hfd'
      · rw [hs3]
      · rw [hs4]
      · rw [hs5]
      · rw [hs6]
      · intro g' hg'
        have h1 : g' < (p + 512) / 512 := by omega
        rw [hs7 g' h1]
        exact upd_other ino.data (p / 512) g' newsec (by omega)
      · exact hs8
      · intro s hs
        exact hs9 s (hsbm_of s hs)
      · intro s hs
        rw [hs10 s (hsbm_of s hs)]
        exact upd_other st.byteSectors newsec s data1 (hne_of s hs)
      · intro k hk
        rcases Nat.eq_zero_or_pos k with hk0 | hkpos
        · -- k = 0: the sector allocated in this iteration
          subst hk0
          have hdat : ino'.data (p / 512 + 0) = newsec := by
            rw [Nat.add_zero, hs7 (p / 512) (by omega)]
            exact upd_same ino.data (p / 512) newsec
          have harg : (buffer.drop (bidx + 512 * 0)).take (min 512 (r - 512 * 0)) =
              (buffer.drop bidx).take 512 := by
            rw [Nat.mul_zero, Nat.add_zero, Nat.sub_zero, Nat.min_eq_left (by omega)]
          refine ⟨?_, ?_, ?_⟩
          · rw [hdat]; exact hfresh
          · rw [hdat]
            exact hs9 newsec hbits.1
          · rw [hdat, hs10 newsec hbits.1, harg]
            exact upd_same st.byteSectors newsec data1
        · -- k ≥ 1: a sector allocated by a later iteration
          obtain ⟨k', rfl⟩ : ∃ k', k = k' + 1 := ⟨k - 1, by omega⟩
          have hk' : k' < (r - 512 + 511) / 512 := by omega
          have hidx : (p + 512) / 512 + k' = p / 512 + (k' + 1) := by omega
          obtain ⟨hc1, hc2, hc3⟩ := hs11 k' hk'
          rw [hidx] at hc1 hc2 hc3
          have hne : ino'.data (p / 512 + (k' + 1)) ≠ newsec := by
            intro hcontr
            rw [hcontr] at hc1
            show False
            have : bitGet st2.sectorBitmap newsec = true := hbits.1
            rw [this] at hc1
            exact Bool.true_eq_false.mp hc1
          refine ⟨?_, hc2, ?_⟩
          · rw [← hbits.2 _ hne]
            exact hc1
          · rw [hc3]
            have ha1 : bidx + 512 + 512 * k' = bidx + 512 * (k' + 1) := by ring
            have ha2 : r - 512 - 512 * k' = r - 512 * (k' + 1) := by omega
            rw [ha1, ha2]
    · -- the final (possibly partial) sector: the loop terminates after it
      rw [if_neg (by omega : ¬ p + 512 < p + r), Nat.sub_self, writeLoop_zero]
      refine ⟨_, _, rfl, upd_same st.openFiles 0 ⟨i, 0, p + r⟩, ?_, rfl, rfl, rfl, rfl, ?_,
        hwf2, ?_, ?_, ?_⟩
      · intro fd' hfd'
        exact upd_other st.openFiles 0 fd' ⟨i, 0, p + r⟩ hfd'
      · intro g' hg'
        exact upd_other ino.data (p / 512) g' newsec (by omega)
      · intro s hs
        rcases eq_or_ne s newsec with hsn | hsn
        · rw [hsn]; exact hbits.1
        · rw [hbits.2 s hsn]; exact hs
      · intro s hs
        have hne : s ≠ newsec := by
          intro hcontr
          rw [hcontr, hfresh] at hs
          exact Bool.false_ne_true hs
        exact upd_other st.byteSectors newsec s
          (writeBytes zeroSector 0 ((buffer.drop bidx).take r)) hne
      · intro k hk
        have hk0 : k = 0 := by omega
        subst hk0
        have hdatB : ({ ino with data := upd ino.data (p / 512) newsec } : Inode).data
            (p / 512 + 0) = newsec := by
          rw [Nat.add_zero]
          exact upd_same ino.data (p / 512) newsec
        have harg : (buffer.drop (bidx + 512 * 0)).take (min 512 (r - 512 * 0)) =
            (buffer.drop bidx).take r := by
          rw [Nat.mul_zero, Nat.add_zero, Nat.sub_zero, Nat.min_eq_right (by omega)]
        rw [hdatB, harg]
        refine ⟨hfresh, hbits.1, ?_⟩
        exact upd_same st.byteSectors newsec (writeBytes zeroSector 0 ((buffer.drop bidx).take r))

lemma take_writeBytes_zero (c : List Nat) (n : Nat) (h : c.length = n) :
    (writeBytes zeroSector 0 c).take n = c := by
  unfold writeBytes
  rw [List.take_zero, List.nil_append]
  exact List.take_left' h

/-- Reading a file of known sector contents block by block: starting from
cursor `p` (sector-aligned, or at EOF), `readAll` returns the accumulator
followed by exactly the file bytes from `p` on. -/
lemma readLoop_spec (i : Int) (buffer : List Nat) (hi : 0 < i) :
    ∀ fuel st p acc,
      st.openFiles 0 = ⟨i, buffer.length, p⟩ →
      (st.inodes i).size = buffer.length →
      p ≤ buffer.length →
      (p % 512 = 0 ∨ p = buffer.length) →
      (buffer.length - p + 511) / 512 + 1 ≤ fuel →
      (∀ k, 512 * k < buffer.length →
        st.byteSectors ((st.inodes i).data k) =
          writeBytes zeroSector 0
            ((buffer.drop (512 * k)).take (min 512 (buffer.length - 512 * k)))) →
      (readAll 0 fuel st acc).1 = acc ++ buffer.drop p := by
  intro fuel
  induction fuel with
  | zero => intro st p acc _ _ _ _ hfuel _; omega
  | succ fuel ih =>
    intro st p acc hsess hino hple hdisj hfuel hcontent
    by_cases hpN : p = buffer.length
    · -- at EOF: `File_Read` returns 0 and `readAll` stops
      have hread : File_Read st 0 SECTOR_SIZE = (0, st, [], none) := by
        simp only [File_Read, hsess, MOF_eq, SS_eq]
        split_ifs with h1 h2 h3 h4 h5 h6 <;> first | omega | rfl
      simp only [readAll, hread]
      rw [if_pos (by omega : (0 : Int) ≤ 0), hpN, List.drop_length, List.append_nil]
    · -- mid file: one sector-bounded read, then recurse
      have hdvd : p % 512 = 0 := by omega
      have hplt : p < buffer.length := by omega
      have hp512 : 512 * (p / 512) = p := by omega
      have hstart : p / 512 * 512 = p := by omega
      have hdata := hcontent (p / 512) (by omega)
      rw [hp512] at hdata
      have hclen : ((buffer.drop p).take (min 512 (buffer.length - p))).length =
          min 512 (buffer.length - p) := by
        simp only [List.length_take, List.length_drop]
        omega
      have hread : File_Read st 0 SECTOR_SIZE =
          (((min 512 (buffer.length - p) : Nat) : Int),
           { st with openFiles := upd st.openFiles 0 ⟨i, buffer.length, p + min 512 (buffer.length - p)⟩ },
           (buffer.drop p).take (min 512 (buffer.length - p)), none) := by
        simp only [File_Read, hsess, MOF_eq, SS_eq, hino, hstart, Nat.sub_self]
        split_ifs with h1 h2 h3 h4 h5
        · omega
        · omega
        · cases h3 with
          | inl h => omega
          | inr h => exact h.elim
        · -- the file ends inside this sector: the copied range is clamped
          have hm : min 512 (buffer.length - p) = buffer.length - p := by omega
          rw [hm] at hdata hclen ⊢
          rw [hdata, List.drop_zero, take_writeBytes_zero _ _ hclen]
        · omega
        · -- a full sector is available
          have hm : min 512 (buffer.length - p) = 512 := by omega
          rw [hm] at hdata hclen ⊢
          rw [hdata, List.drop_zero, take_writeBytes_zero _ _ hclen]
      simp only [readAll, hread]
      rw [if_neg (by
        rw [not_le]
        have h1 : 1 ≤ min 512 (buffer.length - p) := by omega
        omega)]
      have hrec := ih
        { st with openFiles := upd st.openFiles 0 ⟨i, buffer.length, p + min 512 (buffer.length - p)⟩ }
        (p + min 512 (buffer.length - p))
        (acc ++ (buffer.drop p).take (min 512 (buffer.length - p)))
        (upd_same st.openFiles 0 ⟨i, buffer.length, p + min 512 (buffer.length - p)⟩)
        hino (by omega) (by omega) (by omega) hcontent
      rw [hrec, List.append_assoc]
      congr 1
      have hdd : buffer.drop (p + min 512 (buffer.length - p)) =
          (buffer.drop p).drop (min 512 (buffer.length - p)) := by
        rw [List.drop_drop]
      rw [hdd]
      exact List.take_append_drop _ _

/-- C2: writing `N ≤ MAX_SECTORS_PER_FILE * SECTOR_SIZE` bytes at offset 0
to a freshly created open file with `File_Write`, then seeking back to offset
0 and reading with repeated `File_Read` calls until they return 0,
reproduces the original bytes: the write returns `N` with no error, the seek
returns 0, and the accumulated reads equal the buffer. -/
theorem write_read_roundtrip (st : FSState) (i : Int) (buffer : List Nat)
    (hi : 0 < i)
    (hsess : st.openFiles 0 = ⟨i, 0, 0⟩)
    (hisize : (st.inodes i).size = 0)
    (hwf : wfBytes st.sectorBitmap)
    (hfree : MAX_SECTORS_PER_FILE ≤ freeBits st.sectorBitmap SECTOR_BITMAP_SIZE)
    (hN : buffer.length ≤ MAX_SECTORS_PER_FILE * SECTOR_SIZE) :
    (File_Write st 0 buffer buffer.length).1 = (buffer.length : Int) ∧
    (File_Write st 0 buffer buffer.length).2.2 = none ∧
    (File_Seek (File_Write st 0 buffer buffer.length).2.1 0 0).1 = 0 ∧
    (readAll 0 (MAX_SECTORS_PER_FILE + 1)
      (File_Seek (File_Write st 0 buffer buffer.length).2.1 0 0).2.1 []).1 = buffer := by
  simp only [MSPF_eq, SS_eq] at hfree hN ⊢
  by_cases hN0 : buffer.length = 0
  · -- the empty write: nothing changes, the read loop stops immediately
    have hw : File_Write st 0 buffer buffer.length = (0, st, none) := by
      simp only [File_Write, MOF_eq, hsess]
      rw [if_neg (by omega : ¬ (256 : Nat) < 0), if_neg (by omega : ¬ i ≤ 0), if_pos hN0]
    have hopen : is_file_open st.openFiles i = 1 :=
      is_file_open_pos st.openFiles i ⟨0, by rw [MOF_eq]; omega, by rw [hsess]⟩
    have hseek : File_Seek st 0 0 =
        (0, { st with openFiles := upd st.openFiles 0 ⟨i, 0, 0⟩ }, none) := by
      simp only [File_Seek, hsess, MOF_eq, hopen]
      rw [if_neg (by omega : ¬ (1 : Nat) ≤ 0),
        if_neg (by omega : ¬ ((0 : Nat) < 0 ∨ (256 : Nat) < 0)),
        if_neg (by omega : ¬ (((0 : Nat) : Int) < 0 ∨ (0 : Int) < 0))]
      rfl
    rw [hw, hseek]
    refine ⟨by omega, rfl, rfl, ?_⟩
    have hr := readLoop_spec i buffer hi 31
      { st with openFiles := upd st.openFiles 0 ⟨i, 0, 0⟩ } 0 []
      (by rw [hN0] at *; exact upd_same st.openFiles 0 ⟨i, 0, 0⟩)
      (by rw [hN0]; exact hisize)
      (by omega) (by omega) (by omega)
      (by intro k hk; omega)
    rw [hr, List.drop_zero, List.nil_append]
  · -- a non-empty write: one pass of the loop, then sector-by-sector reads
    obtain ⟨st', ino', hres, hs1, hs2, hs3, hs4, hs5, hs6, hs7, hs8, hs9, hs10, hs11⟩ :=
      writeLoop_fresh i buffer buffer.length buffer.length 0 st (st.inodes i) 0
        (le_refl _) (by omega) hsess (by omega) (by omega) hwf (by omega)
    simp only [Nat.zero_add, Nat.zero_div] at hres hs1 hs11
    have hw : File_Write st 0 buffer buffer.length =
        ((buffer.length : Int),
         { st' with
            inodes := updI st'.inodes i { ino' with size := buffer.length },
            openFiles := upd st'.openFiles 0 ⟨i, buffer.length, buffer.length⟩ },
         none) := by
      simp only [File_Write, MOF_eq, hsess]
      rw [if_neg (by omega : ¬ (256 : Nat) < 0), if_neg (by omega : ¬ i ≤ 0), if_neg hN0]
      rw [hres]
      dsimp only
      rw [hs1]
      rw [if_pos (by omega : (0 : Nat) < buffer.length)]
    have hsW : (upd st'.openFiles 0 ⟨i, buffer.length, buffer.length⟩) 0 =
        ⟨i, buffer.length, buffer.length⟩ :=
      upd_same st'.openFiles 0 ⟨i, buffer.length, buffer.length⟩
    have hopen : is_file_open (upd st'.openFiles 0 ⟨i, buffer.length, buffer.length⟩) i = 1 :=
      is_file_open_pos _ i ⟨0, by rw [MOF_eq]; omega, by rw [hsW]⟩
    rw [hw]
    have hseek : File_Seek
        { st' with
            inodes := updI st'.inodes i { ino' with size := buffer.length },
            openFiles := upd st'.openFiles 0 ⟨i, buffer.length, buffer.length⟩ } 0 0 =
        (0,
         { st' with
            inodes := updI st'.inodes i { ino' with size := buffer.length },
            openFiles := upd (upd st'.openFiles 0 ⟨i, buffer.length, buffer.length⟩) 0
              ⟨i, buffer.length, 0⟩ },
         none) := by
      simp only [File_Seek, hsW, MOF_eq, hopen]
      rw [if_neg (by omega : ¬ (1 : Nat) ≤ 0),
        if_neg (by omega : ¬ ((0 : Nat) < 0 ∨ (256 : Nat) < 0)),
        if_neg (by omega : ¬ ((buffer.length : Int) < 0 ∨ (0 : Int) < 0))]
      rfl
    rw [hseek]
    refine ⟨rfl, rfl, rfl, ?_⟩
    have hr := readLoop_spec i buffer hi 31
      { st' with
          inodes := updI st'.inodes i { ino' with size := buffer.length },
          openFiles := upd (upd st'.openFiles 0 ⟨i, buffer.length, buffer.length⟩) 0
            ⟨i, buffer.length, 0⟩ } 0 []
      (upd_same (upd st'.openFiles 0 ⟨i, buffer.length, buffer.length⟩) 0
        ⟨i, buffer.length, 0⟩)
      (congrArg Inode.size (updI_same st'.inodes i { ino' with size := buffer.length }))
      (by omega) (by omega) (by omega)
      ?_
    · rw [hr, List.drop_zero, List.nil_append]
    · intro k hk
      have hdk := congrArg (fun r => r.data k)
        (updI_same st'.inodes i { ino' with size := buffer.length })
      dsimp only at hdk
      rw [show ((updI st'.inodes i { ino' with size := buffer.length }) i).data k =
        ino'.data k from hdk]
      exact (hs11 k (by omega)).2.2

/-- C2 witness: the round trip at the concrete fresh file state and the
buffer `[1, 2, 3]`. -/
theorem write_read_roundtrip_witness :
    (File_Write freshFileState 0 [1, 2, 3] 3).1 = 3 ∧
    (readAll 0 (MAX_SECTORS_PER_FILE + 1)
      (File_Seek (File_Write freshFileState 0 [1, 2, 3] 3).2.1 0 0).2.1 []).1 = [1, 2, 3] := by
  have h := write_read_roundtrip freshFileState 1 [1, 2, 3] (by decide) (by decide)
    (by decide) (by decide) (by decide) (by decide)
  exact ⟨h.1, h.2.2.2⟩

end LibFS
